import Mathlib

/-!
Verification of the studentswap client's messaging subsystem (src/app.js).

JavaScript strings are modelled as `List Char` (sequences of code units; for
the identifiers and e-mail addresses at issue the code-unit and code-point
views coincide).  Each definition below is a direct translation of a function
or statement block of src/app.js; external-store queries (Supabase
`select/order/filter`) are modelled as pure functions over an explicit table
of rows, following the query contract the source requests.
-/

namespace StudentSwap

/-- JavaScript string comparison (`<` on strings, as used by the default
`Array.prototype.sort` comparator): lexicographic on code units. -/
def jsStrLt : List Char → List Char → Bool
  | [], [] => false
  | [], _ :: _ => true
  | _ :: _, [] => false
  | a :: as, b :: bs =>
    if a.toNat < b.toNat then true
    else if b.toNat < a.toNat then false
    else jsStrLt as bs

/-- The conversation-id separator used by src/app.js (`'-'`). -/
def sepChar : Char := '-'

/-- src/app.js:1088-1090, `getConversationId(idA, idB)`:
`[idA, idB].sort().join('-')`.  A two-element JS `sort()` with the default
comparator yields `[idA, idB]` unless `idB < idA` as strings. -/
def getConversationId (idA idB : List Char) : List Char :=
  if jsStrLt idB idA then idB ++ sepChar :: idA else idA ++ sepChar :: idB

/-- JavaScript `String.prototype.split` with a single-character separator:
splits on every occurrence; `''.split(c) = ['']`. -/
def splitOnChar (c : Char) : List Char → List (List Char)
  | [] => [[]]
  | x :: xs =>
    let r := splitOnChar c xs
    if x = c then [] :: r else (x :: r.headD []) :: r.tail

/-- JS `String.prototype.toLowerCase`, restricted to the simple ASCII case
mapping (sufficient for the characters compared against `'.ca'`). -/
def jsToLower (c : Char) : Char :=
  if 65 ≤ c.toNat ∧ c.toNat ≤ 90 then Char.ofNat (c.toNat + 32) else c

/-- JS `String.prototype.endsWith`. -/
def jsEndsWith (s suffix : List Char) : Bool :=
  List.isSuffixOf suffix s

/-- src/app.js:89-94, `validStudentEmail(email)`: `(email || '').split('@')`
must have exactly two parts and the second part, lowercased, must end with
`'.ca'`.  A `null`/`undefined` argument is modelled as `none` (JS `||`
replaces it, like the empty string, by `''`). -/
def validStudentEmail (email : Option (List Char)) : Bool :=
  match splitOnChar '@' (email.getD []) with
  | [_, p1] => jsEndsWith (p1.map jsToLower) ['.', 'c', 'a']
  | _ => false

/-! ### Order lemmas for `jsStrLt` -/

theorem jsStrLt_asymm : ∀ a b : List Char, jsStrLt a b = true → jsStrLt b a = false
  | [], [] => by simp [jsStrLt]
  | [], _ :: _ => by simp [jsStrLt]
  | _ :: _, [] => by simp [jsStrLt]
  | a :: as, b :: bs => by
    simp only [jsStrLt]
    intro h
    rcases Nat.lt_trichotomy a.toNat b.toNat with hab | hab | hab
    · rw [if_neg (show ¬ b.toNat < a.toNat by omega), if_pos hab]
    · rw [if_neg (show ¬ a.toNat < b.toNat by omega),
          if_neg (show ¬ b.toNat < a.toNat by omega)] at h
      rw [if_neg (show ¬ b.toNat < a.toNat by omega),
          if_neg (show ¬ a.toNat < b.toNat by omega)]
      exact jsStrLt_asymm as bs h
    · rw [if_neg (show ¬ a.toNat < b.toNat by omega), if_pos hab] at h
      exact absurd h (by simp)

theorem jsStrLt_conn : ∀ a b : List Char,
    jsStrLt a b = false → jsStrLt b a = false → a = b
  | [], [] => by intro _ _; rfl
  | [], _ :: _ => by simp [jsStrLt]
  | _ :: _, [] => by simp [jsStrLt]
  | a :: as, b :: bs => by
    simp only [jsStrLt]
    intro h₁ h₂
    rcases Nat.lt_trichotomy a.toNat b.toNat with hab | hab | hab
    · rw [if_pos hab] at h₁
      exact absurd h₁ (by simp)
    · rw [if_neg (show ¬ a.toNat < b.toNat by omega),
          if_neg (show ¬ b.toNat < a.toNat by omega)] at h₁
      rw [if_neg (show ¬ b.toNat < a.toNat by omega),
          if_neg (show ¬ a.toNat < b.toNat by omega)] at h₂
      have hval : a = b := by
        calc a = Char.ofNat a.toNat := (Char.ofNat_toNat a).symm
          _ = Char.ofNat b.toNat := by rw [hab]
          _ = b := Char.ofNat_toNat b
      rw [hval, jsStrLt_conn as bs h₁ h₂]
    · rw [if_pos hab] at h₂
      exact absurd h₂ (by simp)

/-! ### `splitOnChar` structure lemmas -/

theorem splitOnChar_cons_pos {c x : Char} {xs : List Char} (hx : x = c) :
    splitOnChar c (x :: xs) = [] :: splitOnChar c xs := by
  simp [splitOnChar, hx]

theorem splitOnChar_cons_neg {c x : Char} {xs : List Char} (hx : x ≠ c) :
    splitOnChar c (x :: xs)
      = (x :: (splitOnChar c xs).headD []) :: (splitOnChar c xs).tail := by
  simp [splitOnChar, hx]

theorem splitOnChar_ne_nil (c : Char) : ∀ s : List Char, splitOnChar c s ≠ []
  | [] => by simp [splitOnChar]
  | x :: xs => by
    by_cases hx : x = c <;> simp [splitOnChar, hx]

theorem splitOnChar_of_not_mem {c : Char} :
    ∀ {s : List Char}, c ∉ s → splitOnChar c s = [s]
  | [], _ => rfl
  | x :: xs, h => by
    have hx : x ≠ c := fun hxc => h (by simp [hxc])
    have hxs : c ∉ xs := fun hm => h (List.mem_cons_of_mem _ hm)
    simp only [splitOnChar, splitOnChar_of_not_mem hxs]
    simp [hx]

theorem splitOnChar_append {c : Char} :
    ∀ {a : List Char} (b : List Char), c ∉ a →
      splitOnChar c (a ++ c :: b) = a :: splitOnChar c b
  | [], b, _ => by
    show splitOnChar c (c :: b) = [] :: splitOnChar c b
    simp [splitOnChar]
  | x :: xs, b, h => by
    have hx : x ≠ c := fun hxc => h (by simp [hxc])
    have hxs : c ∉ xs := fun hm => h (List.mem_cons_of_mem _ hm)
    have ih := splitOnChar_append (a := xs) b hxs
    show splitOnChar c (x :: (xs ++ c :: b)) = (x :: xs) :: splitOnChar c b
    simp only [splitOnChar]
    rw [ih]
    simp [hx]

theorem splitOnChar_eq_single {c : Char} :
    ∀ {s a : List Char}, splitOnChar c s = [a] → s = a ∧ c ∉ a
  | [], a, h => by
    simp only [splitOnChar, List.cons.injEq] at h
    simp [← h.1]
  | x :: xs, a, h => by
    rcases hxs : splitOnChar c xs with _ | ⟨h', t⟩
    · exact absurd hxs (splitOnChar_ne_nil c xs)
    · by_cases hx : x = c
      · rw [splitOnChar_cons_pos hx, hxs] at h
        simp at h
      · rw [splitOnChar_cons_neg hx, hxs] at h
        simp only [List.headD_cons, List.tail_cons, List.cons.injEq] at h
        obtain ⟨ha, ht⟩ := h
        subst ht
        have hrec := splitOnChar_eq_single (c := c) (s := xs) (a := h') hxs
        constructor
        · rw [← ha, hrec.1]
        · rw [← ha]
          intro hm
          rcases List.mem_cons.mp hm with h1 | h2
          · exact hx h1.symm
          · exact hrec.2 h2

theorem splitOnChar_eq_pair {c : Char} :
    ∀ {s a b : List Char}, splitOnChar c s = [a, b] →
      s = a ++ c :: b ∧ c ∉ a ∧ c ∉ b
  | [], a, b, h => by simp [splitOnChar] at h
  | x :: xs, a, b, h => by
    rcases hxs : splitOnChar c xs with _ | ⟨h', t⟩
    · exact absurd hxs (splitOnChar_ne_nil c xs)
    · by_cases hx : x = c
      · rw [splitOnChar_cons_pos hx, hxs] at h
        simp only [List.cons.injEq] at h
        obtain ⟨ha, hh, ht⟩ := h
        have hxs' : splitOnChar c xs = [b] := by rw [hxs, hh, ht]
        have hb := splitOnChar_eq_single (c := c) (s := xs) (a := b) hxs'
        refine ⟨?_, ?_, hb.2⟩
        · rw [← ha, hx, hb.1]
          simp
        · rw [← ha]
          simp
      · rw [splitOnChar_cons_neg hx, hxs] at h
        simp only [List.headD_cons, List.tail_cons, List.cons.injEq] at h
        obtain ⟨ha, ht⟩ := h
        have hrec := splitOnChar_eq_pair (c := c) (s := xs) (a := h') (b := b)
          (by rw [hxs, ht])
        refine ⟨?_, ?_, hrec.2.2⟩
        · rw [← ha, List.cons_append, hrec.1]
        · rw [← ha]
          intro hm
          rcases List.mem_cons.mp hm with h1 | h2
          · exact hx h1.symm
          · exact hrec.2.1 h2

/-! ### Claim C1: conversation-id symmetry -/

/-- C1.  For every pair of user identifier strings A and B,
`conversationId(A, B)` equals `conversationId(B, A)`: `getConversationId`
(src/app.js:1088-1090) sorts the two identifiers as strings and joins them
with `'-'`, so both participants independently compute the same conversation
identifier. -/
theorem getConversationId_comm (idA idB : List Char) :
    getConversationId idA idB = getConversationId idB idA := by
  unfold getConversationId
  by_cases hba : jsStrLt idB idA = true
  · have hab : jsStrLt idA idB = false := jsStrLt_asymm idB idA hba
    rw [if_pos hba, if_neg (by simp [hab])]
  · have hba' : jsStrLt idB idA = false := by simpa using hba
    by_cases hab : jsStrLt idA idB = true
    · rw [if_neg hba, if_pos hab]
    · have hab' : jsStrLt idA idB = false := by simpa using hab
      rw [if_neg hba, if_neg hab, jsStrLt_conn idA idB hab' hba']

/-! ### Claim C2: splitting a conversation id recovers the participants -/

/-- C2.  For every pair of identifiers A and B in which the separator `'-'`
does not occur, splitting `getConversationId A B` on `'-'` (as
`openConversation`, src/app.js:1185-1187, does via `cId.split('-')`)
recovers exactly the unordered pair of the two identifiers. -/
theorem getConversationId_split_roundtrip (idA idB : List Char)
    (hA : sepChar ∉ idA) (hB : sepChar ∉ idB) :
    splitOnChar sepChar (getConversationId idA idB) = [idA, idB] ∨
    splitOnChar sepChar (getConversationId idA idB) = [idB, idA] := by
  unfold getConversationId
  by_cases hba : jsStrLt idB idA = true
  · right
    rw [if_pos hba, splitOnChar_append idA hB, splitOnChar_of_not_mem hA]
  · left
    rw [if_neg hba, splitOnChar_append idB hA, splitOnChar_of_not_mem hB]

/-- Witness for C2 at the identifiers `"b2"` and `"a1"`. -/
theorem getConversationId_split_roundtrip_witness :
    (sepChar ∉ ("b2".data) ∧ sepChar ∉ ("a1".data)) ∧
      (splitOnChar sepChar (getConversationId ("b2".data) ("a1".data))
          = ["b2".data, "a1".data] ∨
        splitOnChar sepChar (getConversationId ("b2".data) ("a1".data))
          = ["a1".data, "b2".data]) :=
  ⟨⟨by decide, by decide⟩,
    getConversationId_split_roundtrip ("b2".data) ("a1".data)
      (by decide) (by decide)⟩

/-! ### Claim C10: the sign-up email validator -/

/-- C10.  `validStudentEmail` (src/app.js:89-94) accepts an input string iff
it contains exactly one `'@'` (equivalently, it decomposes as
`pre ++ '@' :: post` with `'@'` in neither part) and the part after the
`'@'`, lowercased, ends with `".ca"`; every other input — including
`null`/`undefined` (modelled as `none`) and the empty string — yields
`false`, and the function is total (it never fails). -/
theorem validStudentEmail_spec :
    (∀ s : List Char,
      validStudentEmail (some s) = true ↔
        ∃ pre post : List Char,
          s = pre ++ '@' :: post ∧ '@' ∉ pre ∧ '@' ∉ post ∧
            jsEndsWith (post.map jsToLower) ['.', 'c', 'a'] = true) ∧
    validStudentEmail none = false ∧ validStudentEmail (some []) = false := by
  refine ⟨fun s => ⟨fun h => ?_, fun h => ?_⟩, by decide, by decide⟩
  · unfold validStudentEmail at h
    simp only [Option.getD_some] at h
    split at h
    next p0 p1 heq =>
      obtain ⟨hs, hp0, hp1⟩ := splitOnChar_eq_pair heq
      exact ⟨p0, p1, hs, hp0, hp1, h⟩
    next => exact absurd h (by simp)
  · obtain ⟨pre, post, hs, hpre, hpost, hend⟩ := h
    subst hs
    unfold validStudentEmail
    simp only [Option.getD_some]
    rw [splitOnChar_append post hpre, splitOnChar_of_not_mem hpost]
    exact hend

/-! ### The `messages` table and the store's query contract -/

/-- A row of the `messages` table (README schema: `messages(id,
conversation_id, sender_id, receiver_id, content, created_at)`).  The
creation timestamp is modelled as a natural number. -/
structure Message where
  mid : Nat
  conversation_id : List Char
  sender_id : List Char
  receiver_id : List Char
  content : List Char
  created_at : Nat
deriving DecidableEq, Repr

/-- Ascending `created_at` order, as requested by
`.order('created_at', { ascending: true })`. -/
def createdLe (a b : Message) : Prop := a.created_at ≤ b.created_at

instance : DecidableRel createdLe := fun _ _ => Nat.decLe _ _

instance : IsTotal Message createdLe := ⟨fun _ _ => Nat.le_total _ _⟩

instance : IsTrans Message createdLe := ⟨fun _ _ _ => Nat.le_trans⟩

/-- Descending `created_at` order, as requested by
`.order('created_at', { ascending: false })`. -/
def createdGe (a b : Message) : Prop := b.created_at ≤ a.created_at

instance : DecidableRel createdGe := fun _ _ => Nat.decLe _ _

instance : IsTotal Message createdGe := ⟨fun _ _ => Nat.le_total _ _⟩

instance : IsTrans Message createdGe := ⟨fun _ _ _ h h' => Nat.le_trans h' h⟩

/-- Model of the store query issued by `openConversation`
(src/app.js:1201-1205): `from('messages').select('*')
.eq('conversation_id', cId).order('created_at', { ascending: true })` —
the rows of the table whose conversation id matches, in ascending creation
order. -/
def listByConversation (table : List Message) (cId : List Char) : List Message :=
  List.insertionSort createdLe (table.filter (fun m => m.conversation_id == cId))

/-- Model of the store query issued by `loadConversations`
(src/app.js:1131-1137): all messages in which the user is sender or
receiver, in descending creation order. -/
def userMessages (table : List Message) (userId : List Char) : List Message :=
  List.insertionSort createdGe
    (table.filter (fun m => m.sender_id == userId || m.receiver_id == userId))

/-! ### Claim C6: history load is ascending by creation time -/

/-- Concrete message M1 (t = 1) of the C6 example. -/
def demoM1 : Message :=
  { mid := 1, conversation_id := "a1-b2".data, sender_id := "a1".data,
    receiver_id := "b2".data, content := "one".data, created_at := 1 }

/-- Concrete message M2 (t = 2) of the C6 example. -/
def demoM2 : Message :=
  { mid := 2, conversation_id := "a1-b2".data, sender_id := "b2".data,
    receiver_id := "a1".data, content := "two".data, created_at := 2 }

/-- Concrete message M3 (t = 3) of the C6 example. -/
def demoM3 : Message :=
  { mid := 3, conversation_id := "a1-b2".data, sender_id := "a1".data,
    receiver_id := "b2".data, content := "three".data, created_at := 3 }

/-- C6.  `listByConversation` returns the messages of the requested
conversation as a sequence sorted ascending by creation time (it is a
permutation of the table rows with that conversation id); in particular,
for M1 (t=1), M2 (t=2), M3 (t=3) inserted under the same conversation id,
the result is [M1, M2, M3]. -/
theorem listByConversation_sorted :
    (∀ (table : List Message) (cId : List Char),
      List.Sorted createdLe (listByConversation table cId) ∧
      List.Perm (listByConversation table cId)
        (table.filter (fun m => m.conversation_id == cId))) ∧
    listByConversation [demoM2, demoM3, demoM1] ("a1-b2".data)
      = [demoM1, demoM2, demoM3] := by
  refine ⟨fun table cId => ⟨List.sorted_insertionSort createdLe _,
    List.perm_insertionSort createdLe _⟩, by decide⟩

/-! ### Claim C7: the conversation list aggregator -/

/-- JS `Map`-based grouping of `loadConversations` (src/app.js:1142-1150):
messages are bucketed by `conversation_id`; keys appear in first-occurrence
order (JS `Map` iteration order) and each bucket keeps the input order. -/
def groupOrder : List Message → List (List Message)
  | [] => []
  | m :: rest =>
    (m :: rest.filter (fun x => x.conversation_id == m.conversation_id)) ::
      groupOrder (rest.filter (fun x => x.conversation_id != m.conversation_id))
termination_by l => l.length
decreasing_by
  simp only [List.length_cons]
  exact Nat.lt_succ_of_le (List.length_filter_le _ _)

/-- One rendered conversation-list entry (src/app.js:1152-1168): the
conversation id, the representative message `msgs[0]`, and the counterpart
id computed from it. -/
structure ConvEntry where
  cId : List Char
  lastMsg : Message
  otherId : List Char
deriving DecidableEq, Repr

/-- src/app.js:1128-1170, `loadConversations`: fetch the user's messages
newest-first, group them by conversation id, and turn each group into a
list entry whose representative is the group's first (= newest) message
`msgs[0]` and whose counterpart is the participant of that message who is
not the user. -/
def loadConversations (table : List Message) (userId : List Char) : List ConvEntry :=
  (groupOrder (userMessages table userId)).filterMap fun msgs =>
    msgs.head?.map fun lastMsg =>
      { cId := lastMsg.conversation_id
        lastMsg := lastMsg
        otherId := if lastMsg.sender_id == userId then lastMsg.receiver_id
                   else lastMsg.sender_id }

theorem groupOrder_sublist :
    ∀ (l : List Message), ∀ g ∈ groupOrder l, g.Sublist l := by
  intro l
  induction l using groupOrder.induct with
  | case1 =>
    intro g hg
    simp [groupOrder] at hg
  | case2 m rest ih =>
    intro g hg
    simp only [groupOrder, List.mem_cons] at hg
    rcases hg with h1 | h2
    · rw [h1]
      exact (List.filter_sublist _).cons₂ m
    · exact ((ih g h2).trans (List.filter_sublist _)).cons m

theorem groupOrder_key :
    ∀ (l : List Message), ∀ g ∈ groupOrder l, ∀ hd, g.head? = some hd →
      ∀ x ∈ g, x.conversation_id = hd.conversation_id := by
  intro l
  induction l using groupOrder.induct with
  | case1 =>
    intro g hg
    simp [groupOrder] at hg
  | case2 m rest ih =>
    intro g hg hd hhd x hx
    simp only [groupOrder, List.mem_cons] at hg
    rcases hg with h1 | h2
    · subst h1
      simp only [List.head?_cons, Option.some.injEq] at hhd
      subst hhd
      rcases List.mem_cons.mp hx with hx1 | hx2
      · rw [hx1]
      · have hpx := (List.mem_filter.mp hx2).2
        exact eq_of_beq hpx
    · exact ih g h2 hd hhd x hx

theorem groupOrder_mem_of_mem :
    ∀ (l : List Message), ∀ g ∈ groupOrder l, ∀ x ∈ g, x ∈ l := by
  intro l g hg x hx
  exact (groupOrder_sublist l g hg).subset hx

theorem groupOrder_ne_nil :
    ∀ (l : List Message), ∀ g ∈ groupOrder l, g ≠ [] := by
  intro l
  induction l using groupOrder.induct with
  | case1 =>
    intro g hg
    simp [groupOrder] at hg
  | case2 m rest ih =>
    intro g hg
    simp only [groupOrder, List.mem_cons] at hg
    rcases hg with h1 | h2
    · rw [h1]
      simp
    · exact ih g h2

theorem groupOrder_group_filter :
    ∀ (l : List Message), ∀ g ∈ groupOrder l, ∀ hd, g.head? = some hd →
      g = l.filter (fun x => x.conversation_id == hd.conversation_id) := by
  intro l
  induction l using groupOrder.induct with
  | case1 =>
    intro g hg
    simp [groupOrder] at hg
  | case2 m rest ih =>
    intro g hg hd hhd
    simp only [groupOrder, List.mem_cons] at hg
    rcases hg with h1 | h2
    · subst h1
      simp only [List.head?_cons, Option.some.injEq] at hhd
      subst hhd
      rw [List.filter_cons_of_pos (by simp)]
    · have hrec := ih g h2 hd hhd
      have hdg : hd ∈ g := by
        rcases g with _ | ⟨y, ys⟩
        · simp at hhd
        · simp only [List.head?_cons, Option.some.injEq] at hhd
          rw [hhd]
          exact List.mem_cons_self _ _
      have hdmem : hd ∈ rest.filter
          (fun x => x.conversation_id != m.conversation_id) :=
        groupOrder_mem_of_mem _ g h2 hd hdg
      have hdne : hd.conversation_id ≠ m.conversation_id := by
        have := List.of_mem_filter hdmem
        simpa using this
      rw [List.filter_cons_of_neg (by simpa using fun h => hdne h.symm)]
      rw [hrec, List.filter_filter]
      apply List.filter_congr
      intro x _
      by_cases hxc : x.conversation_id = hd.conversation_id
      · simp [hxc, hdne]
      · simp [hxc]

theorem groupOrder_complete :
    ∀ (l : List Message), ∀ x ∈ l, ∃ g ∈ groupOrder l, x ∈ g := by
  intro l
  induction l using groupOrder.induct with
  | case1 =>
    intro x hx
    simp at hx
  | case2 m rest ih =>
    intro x hx
    rcases List.mem_cons.mp hx with h1 | h2
    · refine ⟨m :: rest.filter
        (fun y => y.conversation_id == m.conversation_id), ?_, ?_⟩
      · simp [groupOrder]
      · simp [h1]
    · by_cases hcid : x.conversation_id = m.conversation_id
      · refine ⟨m :: rest.filter
          (fun y => y.conversation_id == m.conversation_id), ?_, ?_⟩
        · simp [groupOrder]
        · exact List.mem_cons_of_mem _
            (List.mem_filter_of_mem h2 (by simp [hcid]))
      · have hx' : x ∈ rest.filter
            (fun y => y.conversation_id != m.conversation_id) :=
          List.mem_filter_of_mem h2 (by simpa using hcid)
        obtain ⟨g, hg, hxg⟩ := ih x hx'
        refine ⟨g, ?_, hxg⟩
        simp only [groupOrder, List.mem_cons]
        exact Or.inr hg

theorem groupOrder_heads_sublist :
    ∀ (l : List Message), ((groupOrder l).filterMap List.head?).Sublist l := by
  intro l
  induction l using groupOrder.induct with
  | case1 => simp [groupOrder]
  | case2 m rest ih =>
    simp only [groupOrder, List.filterMap_cons, List.head?_cons]
    exact (ih.trans (List.filter_sublist _)).cons₂ m

theorem filterMap_entry_map_lastMsg (userId : List Char)
    (gs : List (List Message)) :
    (gs.filterMap fun msgs =>
        msgs.head?.map fun lastMsg =>
          ({ cId := lastMsg.conversation_id
             lastMsg := lastMsg
             otherId := if lastMsg.sender_id == userId then lastMsg.receiver_id
                        else lastMsg.sender_id } : ConvEntry)).map ConvEntry.lastMsg
      = gs.filterMap List.head? := by
  induction gs with
  | nil => rfl
  | cons g gs ih =>
    rcases hg : g.head? with _ | hd
    · simp only [List.filterMap_cons, hg, Option.map_none']
      exact ih
    · simp only [List.filterMap_cons, hg, Option.map_some', List.map_cons]
      rw [ih]

/-- The messages of the C7 scenario: conversation `"a1-b2"` with latest
message at t = 5 and conversation `"a1-c3"` with latest message at t = 9. -/
def scenM1 : Message :=
  { mid := 1, conversation_id := "a1-b2".data, sender_id := "a1".data,
    receiver_id := "b2".data, content := "m1".data, created_at := 2 }

/-- Scenario message: `"a1-b2"`, t = 5 (the conversation's latest). -/
def scenM2 : Message :=
  { mid := 2, conversation_id := "a1-b2".data, sender_id := "b2".data,
    receiver_id := "a1".data, content := "m2".data, created_at := 5 }

/-- Scenario message: `"a1-c3"`, t = 3. -/
def scenM3 : Message :=
  { mid := 3, conversation_id := "a1-c3".data, sender_id := "a1".data,
    receiver_id := "c3".data, content := "m3".data, created_at := 3 }

/-- Scenario message: `"a1-c3"`, t = 9 (the conversation's latest). -/
def scenM4 : Message :=
  { mid := 4, conversation_id := "a1-c3".data, sender_id := "c3".data,
    receiver_id := "a1".data, content := "m4".data, created_at := 9 }

/-- The C7 scenario table. -/
def scenTable : List Message := [scenM1, scenM3, scenM2, scenM4]

/-- C7.  `loadConversations` groups the user's messages by conversation
identifier (every conversation with a message appears), selects each
group's most-recently-created message as representative (`lastMsg`),
resolves the counterpart as the participant of that message who is not the
user (assuming well-formed two-party messages, i.e. sender ≠ receiver),
and returns the list ordered by representative creation time descending;
in the concrete scenario with conversations `"a1-b2"` (latest t = 5) and
`"a1-c3"` (latest t = 9) the resulting order is `["a1-c3", "a1-b2"]`. -/
theorem loadConversations_spec :
    (∀ (table : List Message) (userId : List Char),
      (∀ m ∈ table, m.sender_id ≠ m.receiver_id) →
      (∀ e ∈ loadConversations table userId,
        e.lastMsg ∈ userMessages table userId ∧
        e.cId = e.lastMsg.conversation_id ∧
        (∀ m ∈ userMessages table userId,
          m.conversation_id = e.cId → m.created_at ≤ e.lastMsg.created_at) ∧
        e.otherId ≠ userId ∧
        (e.otherId = e.lastMsg.sender_id ∨ e.otherId = e.lastMsg.receiver_id)) ∧
      (∀ m ∈ userMessages table userId,
        ∃ e ∈ loadConversations table userId, e.cId = m.conversation_id) ∧
      List.Pairwise (fun e1 e2 => e2.lastMsg.created_at ≤ e1.lastMsg.created_at)
        (loadConversations table userId)) ∧
    (loadConversations scenTable ("a1".data)).map ConvEntry.cId
      = ["a1-c3".data, "a1-b2".data] := by
  constructor
  · intro table userId hdistinct
    have hsorted : List.Sorted createdGe (userMessages table userId) := by
      unfold userMessages
      exact List.sorted_insertionSort createdGe _
    refine ⟨?_, ?_, ?_⟩
    · intro e he
      unfold loadConversations at he
      obtain ⟨g, hg, hfg⟩ := List.mem_filterMap.mp he
      obtain ⟨hd, hhd, hFe⟩ := Option.map_eq_some'.mp hfg
      have hdg : hd ∈ g := by
        rcases g with _ | ⟨y, ys⟩
        · simp at hhd
        · simp only [List.head?_cons, Option.some.injEq] at hhd
          rw [hhd]
          exact List.mem_cons_self _ _
      have hddata : hd ∈ userMessages table userId :=
        groupOrder_mem_of_mem _ g hg hd hdg
      have hdfilter : hd ∈ List.filter
          (fun m => m.sender_id == userId || m.receiver_id == userId) table := by
        have := hddata
        unfold userMessages at this
        exact (List.mem_insertionSort createdGe).mp this
      have hdtable : hd ∈ table := List.mem_of_mem_filter hdfilter
      have hdpart : (hd.sender_id == userId || hd.receiver_id == userId) = true :=
        (List.mem_filter.mp hdfilter).2
      subst hFe
      refine ⟨hddata, rfl, ?_, ?_, ?_⟩
      · intro m hm hcid
        have hgfull := groupOrder_group_filter _ g hg hd hhd
        have hmg : m ∈ g := by
          rw [hgfull]
          exact List.mem_filter_of_mem hm (by simpa using hcid)
        have hgsorted : List.Pairwise createdGe g :=
          List.Pairwise.sublist (groupOrder_sublist _ g hg) hsorted
        rcases g with _ | ⟨y, ys⟩
        · simp at hhd
        · simp only [List.head?_cons, Option.some.injEq] at hhd
          subst hhd
          rcases List.mem_cons.mp hmg with hmy | hmys
          · rw [hmy]
          · exact (List.pairwise_cons.mp hgsorted).1 m hmys
      · show (if hd.sender_id == userId then hd.receiver_id
              else hd.sender_id) ≠ userId
        by_cases hs : hd.sender_id == userId
        · rw [if_pos hs]
          have hsend : hd.sender_id = userId := eq_of_beq hs
          have := hdistinct hd hdtable
          rw [hsend] at this
          exact fun hre => this hre.symm
        · rw [if_neg hs]
          exact fun hse => hs (by simp [hse])
      · show (if hd.sender_id == userId then hd.receiver_id
              else hd.sender_id) = hd.sender_id ∨
            (if hd.sender_id == userId then hd.receiver_id
              else hd.sender_id) = hd.receiver_id
        by_cases hs : hd.sender_id == userId
        · rw [if_pos hs]
          exact Or.inr rfl
        · rw [if_neg hs]
          exact Or.inl rfl
    · intro m hm
      obtain ⟨g, hg, hmg⟩ := groupOrder_complete _ m hm
      rcases hgshape : g with _ | ⟨hd, tl⟩
      · exact absurd hgshape (groupOrder_ne_nil _ g hg)
      · subst hgshape
        refine ⟨{ cId := hd.conversation_id, lastMsg := hd,
                  otherId := if hd.sender_id == userId then hd.receiver_id
                             else hd.sender_id }, ?_, ?_⟩
        · unfold loadConversations
          exact List.mem_filterMap.mpr ⟨hd :: tl, hg, rfl⟩
        · show hd.conversation_id = m.conversation_id
          exact (groupOrder_key _ (hd :: tl) hg hd rfl m hmg).symm
    · have hheads : List.Pairwise createdGe
          ((groupOrder (userMessages table userId)).filterMap List.head?) :=
        List.Pairwise.sublist (groupOrder_heads_sublist _) hsorted
      have hmapeq := filterMap_entry_map_lastMsg userId
        (groupOrder (userMessages table userId))
      have hmap : List.Pairwise createdGe
          ((loadConversations table userId).map ConvEntry.lastMsg) := by
        unfold loadConversations
        rw [hmapeq]
        exact hheads
      exact List.pairwise_map.mp hmap
  · have h : userMessages scenTable ("a1".data)
        = [scenM4, scenM2, scenM3, scenM1] := by decide
    simp only [loadConversations, h]
    simp +decide [groupOrder]

/-- Witness for C7: the scenario table satisfies the sender-distinct
hypothesis, and the aggregator's guarantees hold there. -/
theorem loadConversations_spec_witness :
    (∀ m ∈ scenTable, m.sender_id ≠ m.receiver_id) ∧
      ((∀ e ∈ loadConversations scenTable ("a1".data),
        e.lastMsg ∈ userMessages scenTable ("a1".data) ∧
        e.cId = e.lastMsg.conversation_id ∧
        (∀ m ∈ userMessages scenTable ("a1".data),
          m.conversation_id = e.cId → m.created_at ≤ e.lastMsg.created_at) ∧
        e.otherId ≠ ("a1".data) ∧
        (e.otherId = e.lastMsg.sender_id ∨ e.otherId = e.lastMsg.receiver_id)) ∧
      (∀ m ∈ userMessages scenTable ("a1".data),
        ∃ e ∈ loadConversations scenTable ("a1".data),
          e.cId = m.conversation_id) ∧
      List.Pairwise (fun e1 e2 => e2.lastMsg.created_at ≤ e1.lastMsg.created_at)
        (loadConversations scenTable ("a1".data))) :=
  ⟨by decide, loadConversations_spec.1 scenTable ("a1".data) (by decide)⟩

/-! ### The chat view and the message submit handler -/

/-- The JS `WhiteSpace`/`LineTerminator` characters removed by
`String.prototype.trim`. -/
def isJsWhitespace (c : Char) : Bool :=
  c.toNat = 0x20 || c.toNat = 0x09 || c.toNat = 0x0A || c.toNat = 0x0B ||
  c.toNat = 0x0C || c.toNat = 0x0D || c.toNat = 0xA0 || c.toNat = 0x1680 ||
  (0x2000 ≤ c.toNat && c.toNat ≤ 0x200A) || c.toNat = 0x2028 ||
  c.toNat = 0x2029 || c.toNat = 0x202F || c.toNat = 0x205F ||
  c.toNat = 0x3000 || c.toNat = 0xFEFF

/-- JS `String.prototype.trim`: strips whitespace from both ends. -/
def jsTrim (s : List Char) : List Char :=
  ((s.dropWhile isJsWhitespace).reverse.dropWhile isJsWhitespace).reverse

/-- The chat view's mutable state: the rendered message list
(`#chat-messages`, tracked as the underlying records) and the text of the
input field (`#message-input`). -/
structure ChatView where
  chatMessages : List Message
  messageInput : List Char
deriving DecidableEq, Repr

/-- Outcome of `supabase.from('messages').insert(...)`: supabase-js returns
a resolved `{ error }` object — an access-control rejection or a store
failure is a value, not a thrown exception. -/
inductive InsertResult where
  | ok
  | accessDenied
  | storeError
deriving DecidableEq, Repr

/-- The arguments of one `insert` call on the `messages` table. -/
structure InsertCall where
  conversation_id : List Char
  sender_id : List Char
  receiver_id : List Char
  content : List Char
deriving DecidableEq, Repr

/-- src/app.js:1226-1237, `messageForm.onsubmit`: trim the input; if the
trimmed content is empty, return without any network call; otherwise await
the insert (whose `{ error }` result the handler never inspects) and then
set `messageInput.value = ''`.  Returns the new view state and the list of
insert calls issued. -/
def messageFormSubmit (cId senderId receiverId : List Char)
    (view : ChatView) (result : InsertResult) : ChatView × List InsertCall :=
  let contentVal := jsTrim view.messageInput
  if contentVal = [] then (view, [])
  else
    match result with
    | _ =>
      ({ view with messageInput := [] },
       [{ conversation_id := cId, sender_id := senderId,
          receiver_id := receiverId, content := contentVal }])

/-- src/app.js:1247-1261, `addMessageToChat`: the live feed's INSERT
callback (src/app.js:1219-1222) appends the delivered message to the end
of the rendered list. -/
def addMessageToChat (view : ChatView) (msg : Message) : ChatView :=
  { view with chatMessages := view.chatMessages ++ [msg] }

/-! ### Claims C4, C5, C9: the submit handler's effects -/

/-- C4 counterexample.  The claim says a failed insert (e.g. `StoreError`)
leaves the typed content in the input field; but `messageForm.onsubmit`
(src/app.js:1226-1237) never inspects the insert's `{ error }` result and
runs `messageInput.value = ''` unconditionally after the await, so after a
failed insert of the typed content `"hello"` the field no longer holds
`"hello"`. -/
theorem messageFormSubmit_storeError_clears_input :
    (messageFormSubmit ("a1-b2".data) ("a1".data) ("b2".data)
        { chatMessages := [], messageInput := "hello".data }
        InsertResult.storeError).1.messageInput
      ≠ "hello".data := by
  decide

/-- C4 as amended.  Whenever the trimmed content is non-empty, the submit
handler issues exactly one insert for it and then clears the input field
regardless of the insert's outcome — also on `AccessDenied`/`StoreError`,
so the typed content is NOT preserved for retry. -/
theorem messageFormSubmit_clears_input_always
    (cId senderId receiverId : List Char)
    (view : ChatView) (result : InsertResult)
    (h : jsTrim view.messageInput ≠ []) :
    (messageFormSubmit cId senderId receiverId view result).1.messageInput
        = [] ∧
    (messageFormSubmit cId senderId receiverId view result).2
        = [{ conversation_id := cId, sender_id := senderId,
             receiver_id := receiverId,
             content := jsTrim view.messageInput }] := by
  unfold messageFormSubmit
  rw [if_neg h]
  cases result <;> exact ⟨rfl, rfl⟩

/-- Witness for the amended C4 at content `"hello"` and a failing insert. -/
theorem messageFormSubmit_clears_input_always_witness :
    jsTrim ("hello".data) ≠ [] ∧
      ((messageFormSubmit ("a1-b2".data) ("a1".data) ("b2".data)
          { chatMessages := [], messageInput := "hello".data }
          InsertResult.storeError).1.messageInput = [] ∧
        (messageFormSubmit ("a1-b2".data) ("a1".data) ("b2".data)
          { chatMessages := [], messageInput := "hello".data }
          InsertResult.storeError).2
          = [{ conversation_id := "a1-b2".data, sender_id := "a1".data,
               receiver_id := "b2".data,
               content := jsTrim ("hello".data) }]) :=
  ⟨by decide,
    messageFormSubmit_clears_input_always ("a1-b2".data) ("a1".data)
      ("b2".data) { chatMessages := [], messageInput := "hello".data }
      InsertResult.storeError (by decide)⟩

/-- C5.  For every input whose trimmed content is empty, the submit handler
performs zero insert calls and leaves the whole view — in particular the
input field — unchanged (src/app.js:1228-1229: `if (!contentVal) return;`).
-/
theorem messageFormSubmit_empty_noop
    (cId senderId receiverId : List Char)
    (view : ChatView) (result : InsertResult)
    (h : jsTrim view.messageInput = []) :
    messageFormSubmit cId senderId receiverId view result = (view, []) := by
  unfold messageFormSubmit
  rw [if_pos h]

/-- Witness for C5 at a whitespace-only input. -/
theorem messageFormSubmit_empty_noop_witness :
    jsTrim ("  ".data) = [] ∧
      messageFormSubmit ("a1-b2".data) ("a1".data) ("b2".data)
          { chatMessages := [], messageInput := "  ".data }
          InsertResult.ok
        = ({ chatMessages := [], messageInput := "  ".data }, []) :=
  ⟨by decide,
    messageFormSubmit_empty_noop ("a1-b2".data) ("a1".data) ("b2".data)
      { chatMessages := [], messageInput := "  ".data }
      InsertResult.ok (by decide)⟩

/-- C9.  A successful send leaves the rendered message list untouched — the
submit handler (src/app.js:1226-1237) appends nothing to `#chat-messages`;
the sender's message reaches the view only through the live feed's INSERT
callback, which appends the delivered record (`addMessageToChat`,
src/app.js:1219-1222, 1247-1261). -/
theorem messageFormSubmit_no_local_echo
    (cId senderId receiverId : List Char)
    (view : ChatView) (result : InsertResult)
    (hres : result = InsertResult.ok) (hne : jsTrim view.messageInput ≠ []) :
    (messageFormSubmit cId senderId receiverId view result).1.chatMessages
        = view.chatMessages ∧
    ∀ msg : Message, (addMessageToChat view msg).chatMessages
        = view.chatMessages ++ [msg] := by
  subst hres
  unfold messageFormSubmit
  rw [if_neg hne]
  exact ⟨rfl, fun _ => rfl⟩

/-- Witness for C9 at a successful send of `"hello"`. -/
theorem messageFormSubmit_no_local_echo_witness :
    (InsertResult.ok = InsertResult.ok ∧ jsTrim ("hello".data) ≠ []) ∧
      ((messageFormSubmit ("a1-b2".data) ("a1".data) ("b2".data)
          { chatMessages := [], messageInput := "hello".data }
          InsertResult.ok).1.chatMessages = [] ∧
        ∀ msg : Message,
          (addMessageToChat
              { chatMessages := [], messageInput := "hello".data }
              msg).chatMessages = [] ++ [msg]) :=
  ⟨⟨rfl, by decide⟩,
    messageFormSubmit_no_local_echo ("a1-b2".data) ("a1".data) ("b2".data)
      { chatMessages := [], messageInput := "hello".data }
      InsertResult.ok rfl (by decide)⟩

/-! ### Claims C3, C8: the subscription lifecycle -/

/-- The process-wide subscription state: the `currentChatSubscription`
variable (src/app.js:26) together with — for verification — the list of
channel handles actually open at the realtime backend and a counter
generating fresh handles. -/
structure SubState where
  currentChatSubscription : Option Nat
  openFeeds : List Nat
  nextHandle : Nat
deriving DecidableEq, Repr

/-- The operations that touch the subscription: a router navigation
(`handleRoute`, src/app.js:218-227) and opening a conversation
(`openConversation`, src/app.js:1179-1224).  Which conversation is opened
is irrelevant to the lifecycle invariant and is omitted. -/
inductive NavEvent where
  | navigate
  | openConv
deriving DecidableEq, Repr

/-- The intermediate states an operation passes through, in order (its last
element is the state in which the operation completes).  Both operations
first await `unsubscribe()` on the tracked channel (the feed closes), then
null the variable; `openConversation` afterwards subscribes a fresh feed
and stores its handle.  The subscribe happens only after the teardown has
been awaited, matching the source's `await ...unsubscribe()` before
`supabase.channel(...).subscribe()`. -/
def stepStates (s : SubState) : NavEvent → List SubState
  | NavEvent.navigate =>
    match s.currentChatSubscription with
    | some h =>
      [{ s with openFeeds := s.openFeeds.erase h },
       { s with openFeeds := s.openFeeds.erase h,
                currentChatSubscription := none }]
    | none => []
  | NavEvent.openConv =>
    match s.currentChatSubscription with
    | some h =>
      [{ s with openFeeds := s.openFeeds.erase h },
       { s with openFeeds := s.openFeeds.erase h,
                currentChatSubscription := none },
       { s with openFeeds := s.nextHandle :: s.openFeeds.erase h,
                currentChatSubscription := some s.nextHandle,
                nextHandle := s.nextHandle + 1 }]
    | none =>
      [{ s with openFeeds := s.nextHandle :: s.openFeeds,
                currentChatSubscription := some s.nextHandle,
                nextHandle := s.nextHandle + 1 }]

/-- The state in which an operation completes. -/
def stepFinal (s : SubState) : NavEvent → SubState
  | NavEvent.navigate =>
    match s.currentChatSubscription with
    | some h =>
      { s with openFeeds := s.openFeeds.erase h,
               currentChatSubscription := none }
    | none => s
  | NavEvent.openConv =>
    match s.currentChatSubscription with
    | some h =>
      { s with openFeeds := s.nextHandle :: s.openFeeds.erase h,
               currentChatSubscription := some s.nextHandle,
               nextHandle := s.nextHandle + 1 }
    | none =>
      { s with openFeeds := s.nextHandle :: s.openFeeds,
               currentChatSubscription := some s.nextHandle,
               nextHandle := s.nextHandle + 1 }

/-- Every state passed through while executing a sequence of operations,
one operation at a time (the event loop runs each handler to completion,
awaiting teardown inside it, before the next begins — spec §5's
concurrency model). -/
def run (s : SubState) : List NavEvent → List SubState
  | [] => []
  | e :: es => stepStates s e ++ run (stepFinal s e) es

/-- App start: no subscription (src/app.js:26 initialises the variable to
`null`). -/
def initialSubState : SubState :=
  { currentChatSubscription := none, openFeeds := [], nextHandle := 0 }

/-- The lifecycle invariant: either no feed is open, or exactly the one
feed tracked by `currentChatSubscription` is open. -/
def SubInv (s : SubState) : Prop :=
  s.openFeeds = [] ∨
    ∃ h, s.currentChatSubscription = some h ∧ s.openFeeds = [h]

theorem subInv_stepStates {s : SubState} (hs : SubInv s) (e : NavEvent) :
    ∀ t ∈ stepStates s e, SubInv t := by
  have herase : ∀ h, s.currentChatSubscription = some h →
      s.openFeeds.erase h = [] := by
    intro h hcur
    rcases hs with h1 | ⟨h', hcur', hfeeds⟩
    · rw [h1]
      rfl
    · rw [hcur'] at hcur
      injection hcur with hh
      rw [hfeeds, hh, List.erase_cons_head]
  cases e
  · rcases hcur : s.currentChatSubscription with _ | h
    · intro t ht
      simp [stepStates, hcur] at ht
    · intro t ht
      simp only [stepStates, hcur, List.mem_cons, List.not_mem_nil,
        or_false] at ht
      rcases ht with h1 | h2
      · rw [h1]
        exact Or.inl (herase h hcur)
      · rw [h2]
        exact Or.inl (herase h hcur)
  · rcases hcur : s.currentChatSubscription with _ | h
    · intro t ht
      simp only [stepStates, hcur, List.mem_cons, List.not_mem_nil,
        or_false] at ht
      rw [ht]
      have hfeeds : s.openFeeds = [] := by
        rcases hs with h1 | ⟨h', hcur', _⟩
        · exact h1
        · rw [hcur] at hcur'
          cases hcur'
      exact Or.inr ⟨s.nextHandle, rfl, by rw [hfeeds]⟩
    · intro t ht
      simp only [stepStates, hcur, List.mem_cons, List.not_mem_nil,
        or_false] at ht
      rcases ht with h1 | h2 | h3
      · rw [h1]
        exact Or.inl (herase h hcur)
      · rw [h2]
        exact Or.inl (herase h hcur)
      · rw [h3]
        exact Or.inr ⟨s.nextHandle, rfl, by rw [herase h hcur]⟩

theorem subInv_stepFinal {s : SubState} (hs : SubInv s) (e : NavEvent) :
    SubInv (stepFinal s e) := by
  have herase : ∀ h, s.currentChatSubscription = some h →
      s.openFeeds.erase h = [] := by
    intro h hcur
    rcases hs with h1 | ⟨h', hcur', hfeeds⟩
    · rw [h1]
      rfl
    · rw [hcur'] at hcur
      injection hcur with hh
      rw [hfeeds, hh, List.erase_cons_head]
  cases e
  · rcases hcur : s.currentChatSubscription with _ | h
    · simpa [stepFinal, hcur] using hs
    · simp only [stepFinal, hcur]
      exact Or.inl (herase h hcur)
  · rcases hcur : s.currentChatSubscription with _ | h
    · have hfeeds : s.openFeeds = [] := by
        rcases hs with h1 | ⟨h', hcur', _⟩
        · exact h1
        · rw [hcur] at hcur'
          cases hcur'
      simp only [stepFinal, hcur]
      exact Or.inr ⟨s.nextHandle, rfl, by rw [hfeeds]⟩
    · simp only [stepFinal, hcur]
      exact Or.inr ⟨s.nextHandle, rfl, by rw [herase h hcur]⟩

theorem subInv_run :
    ∀ (es : List NavEvent) (s : SubState), SubInv s →
      ∀ t ∈ run s es, SubInv t := by
  intro es
  induction es with
  | nil =>
    intro s _ t ht
    simp [run] at ht
  | cons e es ih =>
    intro s hs t ht
    simp only [run, List.mem_append] at ht
    rcases ht with h1 | h2
    · exact subInv_stepStates hs e t h1
    · exact ih (stepFinal s e) (subInv_stepFinal hs e) t h2

/-- C3.  Across every sequence of open-conversation and navigation
operations, at most one live chat subscription is open at any instant:
every state passed through — including the intermediate states inside each
operation — has at most one open feed, because `openConversation` awaits
teardown of the existing subscription before creating the new feed and
`handleRoute` tears the current subscription down before the destination
page controller runs. -/
theorem subscription_at_most_one (es : List NavEvent) :
    ∀ t ∈ run initialSubState es, t.openFeeds.length ≤ 1 := by
  intro t ht
  rcases subInv_run es initialSubState (Or.inl rfl) t ht with h1 | ⟨h, _, h2⟩
  · simp [h1]
  · simp [h2]

/-- Witness for C3 on the sequence open, open, navigate: the state right
after the second subscribe is in the trace and has exactly one open feed. -/
theorem subscription_at_most_one_witness :
    ({ currentChatSubscription := some 1, openFeeds := [1], nextHandle := 2 }
        : SubState) ∈
      run initialSubState
        [NavEvent.openConv, NavEvent.openConv, NavEvent.navigate] ∧
    ({ currentChatSubscription := some 1, openFeeds := [1], nextHandle := 2 }
        : SubState).openFeeds.length ≤ 1 :=
  ⟨by decide,
    subscription_at_most_one
      [NavEvent.openConv, NavEvent.openConv, NavEvent.navigate]
      { currentChatSubscription := some 1, openFeeds := [1], nextHandle := 2 }
      (by decide)⟩

/-- src/app.js:218-227: `handleRoute`'s teardown block.  If a subscription
is tracked, `await currentChatSubscription.unsubscribe()` runs inside
`try { ... } catch (err) { /* ignore errors */ }` and the variable is then
nulled; if none is tracked, nothing happens.  The result records the new
variable value and whether teardown was requested; the `Except` layer
carries a teardown failure — which the catch always swallows, so the
function never returns an error. -/
def closeSubscription (sub : Option Nat) (teardown : Except String Unit) :
    Except String (Option Nat × Bool) :=
  match sub with
  | none => Except.ok (none, false)
  | some _ =>
    match teardown with
    | Except.ok _ => Except.ok (none, true)
    | Except.error _ => Except.ok (none, true)

/-- C8.  `close()` is total and safe in every state: it never propagates a
teardown error (the result is always `ok`, so navigation is never
blocked), it always ends Idle (handle cleared to `none`), it requests
teardown of the underlying feed exactly when a subscription was Open, and
when already Idle it is a no-op leaving the (absent) handle unchanged. -/
theorem closeSubscription_total_safe (sub : Option Nat)
    (teardown : Except String Unit) :
    closeSubscription sub teardown = Except.ok (none, sub.isSome) := by
  cases sub <;> cases teardown <;> rfl
